import Mathlib

/-!
Shallow embedding of `src/webp_batch_and_csv.py`.

The script walks an input tree, converts raster images to WebP mirroring the
directory layout under an output root, and accumulates CSV index rows
`[file_stem, station, location, angle, rel_path, url]` together with three
counters (converted / skipped / errors).

Paths are modelled as a list of directory components plus a filename string
(`os.walk` components never contain a separator, and `pathlib` compares paths
componentwise).  The outcome of the convert-or-copy step for a file (the body
of the `try` block at lines 114-125: either the bytes that end up at the
destination, or the exception raised by reading / decoding / encoding) is
carried on each discovered file as an `Except` value; it is deterministic for
a fixed file, which models re-running the tool on an unchanged input tree.
-/

/-- `VALID_EXTS` from line 35 of the script. -/
def VALID_EXTS : List String := [".jpg", ".jpeg", ".png", ".bmp", ".tif", ".tiff", ".gif"]

/-- `WEBP_EXT` from line 36 of the script. -/
def WEBP_EXT : String := ".webp"

/-- `pathlib` name splitting: `name.rfind('.') = i`; the suffix is `name[i:]`
when `0 < i < len(name) - 1`, otherwise empty.  Returns `(stem, suffix)` as
character lists.  `after` is the run of characters after the last dot
(reversed), so the last dot sits at index `length - 1 - after.length`. -/
def pySplitName (cs : List Char) : List Char × List Char :=
  let after := cs.reverse.takeWhile (fun c => c ≠ '.')
  if after.length + 1 < cs.length ∧ 0 < after.length then
    ((cs.reverse.drop (after.length + 1)).reverse, '.' :: after.reverse)
  else (cs, [])

/-- `PurePath.stem`: the filename without its `pathlib` suffix. -/
def pyStem (name : String) : String := String.mk (pySplitName name.toList).1

/-- `PurePath.suffix`: the final extension including the dot, or `""`. -/
def pySuffix (name : String) : String := String.mk (pySplitName name.toList).2

/-- Python `str.lower()` restricted to ASCII letters, which is all the script
ever compares (extensions against the lowercase literals of `VALID_EXTS`). -/
def asciiLower (c : Char) : Char :=
  if 'A' ≤ c ∧ c ≤ 'Z' then Char.ofNat (c.toNat + 32) else c

/-- `str.lower()` on a whole string (ASCII). -/
def lowerStr (s : String) : String := String.mk (s.toList.map asciiLower)

/-- Python `str.rstrip('/')`: remove every trailing `'/'`. -/
def rstripSlash (s : String) : String :=
  String.mk (s.toList.reverse.dropWhile (fun c => c = '/')).reverse

/-- Python `str.split('_')`: split on every underscore, keeping empty
segments; the empty string yields `[""]`. -/
def pySplitUnd : List Char → List (List Char)
  | [] => [[]]
  | c :: rest =>
    match pySplitUnd rest with
    | [] => [[]]
    | g :: gs => if c = '_' then [] :: g :: gs else (c :: g) :: gs

/-- `parse_name` (script lines 39-45): split the stem on `'_'` and return the
first three segments, `''` for every missing one. -/
def parse_name (stem : String) : String × String × String :=
  let parts := (pySplitUnd stem.toList).map String.mk
  (if 0 < parts.length then parts.getD 0 "" else "",
   if 1 < parts.length then parts.getD 1 "" else "",
   if 2 < parts.length then parts.getD 2 "" else "")

/-- A file discovered by `os.walk`: directory components relative to the
input root, the filename, and the outcome of its convert-or-copy step. -/
structure SrcFile where
  dirs : List String
  name : String
  writeResult : Except String (List Nat)
deriving Repr

/-- The command-line switches the walk consults. -/
structure Config where
  baseUrl : String
  overwrite : Bool
  skipWebpInputs : Bool
deriving Repr

/-- One CSV row (script lines 110 and 124). -/
structure Row where
  stem : String
  station : String
  location : String
  angle : String
  relPath : String
  url : String
deriving DecidableEq, Repr

/-- The output tree, keyed by the output-relative path's components.  Writes
shadow (most recent first), matching a file overwrite. -/
abbrev FS := List (List String × List Nat)

/-- Lookup by path components. -/
def lookupFS : FS → List String → Option (List Nat)
  | [], _ => none
  | (k, v) :: rest, q => if q = k then some v else lookupFS rest q

/-- `ext = src.suffix.lower()` (line 93). -/
def ext (f : SrcFile) : String := lowerStr (pySuffix f.name)

/-- Filename of `rel.with_suffix(WEBP_EXT)` (line 103): the `pathlib` stem of
the source name with `.webp` appended. -/
def outName (f : SrcFile) : String := pyStem f.name ++ WEBP_EXT

/-- Components of the mirrored output-relative path `out_rel`. -/
def outRel (f : SrcFile) : List String := f.dirs ++ [outName f]

/-- `out_rel.as_posix()`: components joined with forward slashes. -/
def relPosix (f : SrcFile) : String := String.intercalate "/" (outRel f)

/-- Row synthesis shared by the skip-existing branch (lines 107-110) and the
converted branch (lines 121-124): stem of the destination filename, its
`parse_name` fields, the posix relative path, and the URL obtained from the
base URL with trailing slashes stripped. -/
def mkRow (cfg : Config) (f : SrcFile) : Row :=
  { stem := pyStem (outName f),
    station := (parse_name (pyStem (outName f))).1,
    location := (parse_name (pyStem (outName f))).2.1,
    angle := (parse_name (pyStem (outName f))).2.2,
    relPath := relPosix f,
    url := rstripSlash cfg.baseUrl ++ "/" ++ relPosix f }

/-- Run state: the three counters, the accumulated rows, and the output tree. -/
structure St where
  converted : Nat
  skipped : Nat
  errors : Nat
  rows : List Row
  fs : FS
deriving DecidableEq, Repr

/-- The per-file body of the walk loop (script lines 91-128). -/
def processFile (cfg : Config) (st : St) (f : SrcFile) : St :=
  if ext f = WEBP_EXT ∧ cfg.skipWebpInputs = true then
    { st with skipped := st.skipped + 1 }
  else if ext f ∉ VALID_EXTS ∧ ext f ≠ WEBP_EXT then
    st
  else if (lookupFS st.fs (outRel f)).isSome = true ∧ cfg.overwrite = false then
    { st with rows := st.rows ++ [mkRow cfg f], skipped := st.skipped + 1 }
  else
    match f.writeResult with
    | Except.ok b =>
      { st with fs := (outRel f, b) :: st.fs,
                rows := st.rows ++ [mkRow cfg f],
                converted := st.converted + 1 }
    | Except.error _ => { st with errors := st.errors + 1 }

/-- The walk over a list of discovered files. -/
def runFiles (cfg : Config) (st : St) (files : List SrcFile) : St :=
  files.foldl (processFile cfg) st

/-- A whole run from zero counters over an initial output tree. -/
def run (cfg : Config) (files : List SrcFile) (fs0 : FS) : St :=
  runFiles cfg { converted := 0, skipped := 0, errors := 0, rows := [], fs := fs0 } files

/-- `total = converted + skipped + errors` printed as `Files seen` (line 136). -/
def totalSeen (st : St) : Nat := st.converted + st.skipped + st.errors

/-- A file the extension filter lets through, not cut off by the
skip-native-inputs branch (lines 95-100). -/
def accepted (cfg : Config) (f : SrcFile) : Prop :=
  (ext f ∈ VALID_EXTS ∨ ext f = WEBP_EXT) ∧
    ¬(ext f = WEBP_EXT ∧ cfg.skipWebpInputs = true)

/-- The keyword arguments `to_webp` hands to `Image.save` (lines 54-61):
`format` and `method` always, then either `lossless=True` or `quality=q`,
then `exif` when requested and present on the opened image. -/
structure SaveKwargs where
  format : String
  method : Int
  lossless : Option Bool
  quality : Option Int
  exif : Option (List Nat)
deriving DecidableEq, Repr

/-- Builds `save_kwargs` exactly as `to_webp` does; `exifData` models
`im.info['exif']` when the key is present. -/
def to_webp_save_kwargs (quality : Int) (lossless : Bool) (keep_exif : Bool)
    (method : Int) (exifData : Option (List Nat)) : SaveKwargs :=
  let base : SaveKwargs :=
    { format := "WEBP", method := method, lossless := none, quality := none, exif := none }
  let k1 := if lossless then { base with lossless := some true }
            else { base with quality := some quality }
  match keep_exif, exifData with
  | true, some e => { k1 with exif := some e }
  | _, _ => k1

/-- Exhaustive case analysis over the five ways `processFile` can treat a
file, mirroring the branch structure of the loop body. -/
theorem processFile_rec (cfg : Config) (st : St) (f : SrcFile) {motive : St → Prop}
    (hskipnat : ext f = WEBP_EXT → cfg.skipWebpInputs = true →
      motive { st with skipped := st.skipped + 1 })
    (hignore : ¬(ext f = WEBP_EXT ∧ cfg.skipWebpInputs = true) →
      ext f ∉ VALID_EXTS → ext f ≠ WEBP_EXT → motive st)
    (hexists : accepted cfg f → (lookupFS st.fs (outRel f)).isSome = true →
      cfg.overwrite = false →
      motive { st with rows := st.rows ++ [mkRow cfg f], skipped := st.skipped + 1 })
    (hok : ∀ b, accepted cfg f →
      ¬((lookupFS st.fs (outRel f)).isSome = true ∧ cfg.overwrite = false) →
      f.writeResult = Except.ok b →
      motive { st with fs := (outRel f, b) :: st.fs,
                       rows := st.rows ++ [mkRow cfg f],
                       converted := st.converted + 1 })
    (herr : ∀ m, accepted cfg f →
      ¬((lookupFS st.fs (outRel f)).isSome = true ∧ cfg.overwrite = false) →
      f.writeResult = Except.error m → motive { st with errors := st.errors + 1 }) :
    motive (processFile cfg st f) := by
  unfold processFile
  split_ifs with h1 h2 h3
  · exact hskipnat h1.1 h1.2
  · exact hignore h1 h2.1 h2.2
  · have hacc : accepted cfg f := by
      constructor
      · by_cases hv : ext f ∈ VALID_EXTS
        · exact Or.inl hv
        · by_cases hw : ext f = WEBP_EXT
          · exact Or.inr hw
          · exact absurd ⟨hv, hw⟩ h2
      · exact h1
    exact hexists hacc h3.1 h3.2
  · have hacc : accepted cfg f := by
      constructor
      · by_cases hv : ext f ∈ VALID_EXTS
        · exact Or.inl hv
        · by_cases hw : ext f = WEBP_EXT
          · exact Or.inr hw
          · exact absurd ⟨hv, hw⟩ h2
      · exact h1
    cases hres : f.writeResult with
    | ok b => simp only [hres]; exact hok b hacc h3 hres
    | error m => simp only [hres]; exact herr m hacc h3 hres

/-- The branch for a native-format input under `--skip-webp-inputs`: only the
skipped counter moves, regardless of the rest of the state. -/
theorem processFile_skipNative (cfg : Config) (st : St) (f : SrcFile)
    (h1 : ext f = WEBP_EXT) (h2 : cfg.skipWebpInputs = true) :
    processFile cfg st f = { st with skipped := st.skipped + 1 } := by
  unfold processFile
  rw [if_pos ⟨h1, h2⟩]

/-- The skip-existing branch (lines 106-112). -/
theorem processFile_skipExisting (cfg : Config) (st : St) (f : SrcFile)
    (hacc : accepted cfg f) (hex : (lookupFS st.fs (outRel f)).isSome = true)
    (hov : cfg.overwrite = false) :
    processFile cfg st f =
      { st with rows := st.rows ++ [mkRow cfg f], skipped := st.skipped + 1 } := by
  unfold processFile
  rw [if_neg hacc.2, if_neg, if_pos ⟨hex, hov⟩]
  intro hno
  rcases hacc.1 with hv | hw
  · exact hno.1 hv
  · exact hno.2 hw

/-- The successful convert-or-copy branch. -/
theorem processFile_ok (cfg : Config) (st : St) (f : SrcFile) (b : List Nat)
    (hacc : accepted cfg f)
    (hnot : ¬((lookupFS st.fs (outRel f)).isSome = true ∧ cfg.overwrite = false))
    (hres : f.writeResult = Except.ok b) :
    processFile cfg st f =
      { st with fs := (outRel f, b) :: st.fs,
                rows := st.rows ++ [mkRow cfg f],
                converted := st.converted + 1 } := by
  unfold processFile
  rw [if_neg hacc.2, if_neg, if_neg hnot, hres]
  intro hno
  rcases hacc.1 with hv | hw
  · exact hno.1 hv
  · exact hno.2 hw

/-- The failing convert-or-copy branch. -/
theorem processFile_err (cfg : Config) (st : St) (f : SrcFile) (m : String)
    (hacc : accepted cfg f)
    (hnot : ¬((lookupFS st.fs (outRel f)).isSome = true ∧ cfg.overwrite = false))
    (hres : f.writeResult = Except.error m) :
    processFile cfg st f = { st with errors := st.errors + 1 } := by
  unfold processFile
  rw [if_neg hacc.2, if_neg, if_neg hnot, hres]
  intro hno
  rcases hacc.1 with hv | hw
  · exact hno.1 hv
  · exact hno.2 hw

theorem runFiles_nil (cfg : Config) (st : St) : runFiles cfg st [] = st := rfl

theorem runFiles_cons (cfg : Config) (st : St) (f : SrcFile) (fs : List SrcFile) :
    runFiles cfg st (f :: fs) = runFiles cfg (processFile cfg st f) fs := rfl

/-- `processFile` as an explicit five-way disjunction of branch equations. -/
theorem processFile_split (cfg : Config) (st : St) (f : SrcFile) :
    (processFile cfg st f = { st with skipped := st.skipped + 1 } ∧
      ext f = WEBP_EXT ∧ cfg.skipWebpInputs = true) ∨
    (processFile cfg st f = st ∧ ext f ∉ VALID_EXTS ∧ ext f ≠ WEBP_EXT) ∨
    (processFile cfg st f =
        { st with rows := st.rows ++ [mkRow cfg f], skipped := st.skipped + 1 } ∧
      accepted cfg f ∧ (lookupFS st.fs (outRel f)).isSome = true ∧
      cfg.overwrite = false) ∨
    (∃ b, processFile cfg st f =
        { st with fs := (outRel f, b) :: st.fs,
                  rows := st.rows ++ [mkRow cfg f],
                  converted := st.converted + 1 } ∧
      accepted cfg f ∧
      ¬((lookupFS st.fs (outRel f)).isSome = true ∧ cfg.overwrite = false) ∧
      f.writeResult = Except.ok b) ∨
    (∃ m, processFile cfg st f = { st with errors := st.errors + 1 } ∧
      accepted cfg f ∧
      ¬((lookupFS st.fs (outRel f)).isSome = true ∧ cfg.overwrite = false) ∧
      f.writeResult = Except.error m) := by
  unfold processFile
  by_cases h1 : ext f = WEBP_EXT ∧ cfg.skipWebpInputs = true
  · rw [if_pos h1]; exact Or.inl ⟨rfl, h1⟩
  rw [if_neg h1]
  by_cases h2 : ext f ∉ VALID_EXTS ∧ ext f ≠ WEBP_EXT
  · rw [if_pos h2]; exact Or.inr (Or.inl ⟨rfl, h2⟩)
  rw [if_neg h2]
  have hacc : accepted cfg f := by
    constructor
    · by_cases hv : ext f ∈ VALID_EXTS
      · exact Or.inl hv
      · by_cases hw : ext f = WEBP_EXT
        · exact Or.inr hw
        · exact absurd ⟨hv, hw⟩ h2
    · exact h1
  by_cases h3 : (lookupFS st.fs (outRel f)).isSome = true ∧ cfg.overwrite = false
  · rw [if_pos h3]; exact Or.inr (Or.inr (Or.inl ⟨rfl, hacc, h3⟩))
  rw [if_neg h3]
  cases hres : f.writeResult with
  | ok b => exact Or.inr (Or.inr (Or.inr (Or.inl ⟨b, rfl, hacc, h3, rfl⟩)))
  | error m => exact Or.inr (Or.inr (Or.inr (Or.inr ⟨m, rfl, hacc, h3, rfl⟩)))

theorem lookupFS_cons (k : List String) (v : List Nat) (rest : FS) (q : List String) :
    lookupFS ((k, v) :: rest) q = if q = k then some v else lookupFS rest q := rfl

/-- Two mirrored output paths coincide only when directories and filename do. -/
theorem concat_inj {α : Type} {xs ys : List α} {a b : α}
    (h : xs ++ [a] = ys ++ [b]) : xs = ys ∧ a = b := by
  have h2 := congrArg List.reverse h
  simp only [List.reverse_append, List.reverse_singleton, List.singleton_append] at h2
  injection h2 with hab hrev
  exact ⟨List.reverse_injective hrev, hab⟩

/-- Every field of a row is derived from the output path, so files sharing a
mirrored output path synthesize the same row. -/
theorem mkRow_congr (cfg : Config) {f g : SrcFile} (h : outRel f = outRel g) :
    mkRow cfg f = mkRow cfg g := by
  have h2 : f.dirs = g.dirs ∧ outName f = outName g := concat_inj h
  simp only [mkRow, relPosix, h, h2.2]

/-- One step never deletes an output file. -/
theorem fs_mono_step (cfg : Config) (st : St) (f : SrcFile) (k : List String)
    (h : (lookupFS st.fs k).isSome = true) :
    (lookupFS (processFile cfg st f).fs k).isSome = true := by
  rcases processFile_split cfg st f with
    ⟨heq, -⟩ | ⟨heq, -⟩ | ⟨heq, -⟩ | ⟨b, heq, -⟩ | ⟨m, heq, -⟩ <;> rw [heq]
  · exact h
  · exact h
  · exact h
  · show (lookupFS ((outRel f, b) :: st.fs) k).isSome = true
    rw [lookupFS_cons]
    split
    · rfl
    · exact h
  · exact h

/-- The whole walk never deletes an output file. -/
theorem fs_mono_run (cfg : Config) (files : List SrcFile) :
    ∀ (st : St) (k : List String), (lookupFS st.fs k).isSome = true →
      (lookupFS (runFiles cfg st files).fs k).isSome = true := by
  induction files with
  | nil => intro st k h; exact h
  | cons f rest ih =>
    intro st k h
    rw [runFiles_cons]
    exact ih _ _ (fs_mono_step cfg st f k h)

/-- One step never drops a row. -/
theorem rows_mono_step (cfg : Config) (st : St) (f : SrcFile) (r : Row)
    (h : r ∈ st.rows) : r ∈ (processFile cfg st f).rows := by
  rcases processFile_split cfg st f with
    ⟨heq, -⟩ | ⟨heq, -⟩ | ⟨heq, -⟩ | ⟨b, heq, -⟩ | ⟨m, heq, -⟩ <;> rw [heq]
  · exact h
  · exact h
  · exact List.mem_append_left _ h
  · exact List.mem_append_left _ h
  · exact h

/-- The whole walk never drops a row. -/
theorem rows_mono_run (cfg : Config) (files : List SrcFile) :
    ∀ (st : St) (r : Row), r ∈ st.rows → r ∈ (runFiles cfg st files).rows := by
  induction files with
  | nil => intro st r h; exact h
  | cons f rest ih =>
    intro st r h
    rw [runFiles_cons]
    exact ih _ _ (rows_mono_step cfg st f r h)

/-- Provenance of rows: every row the walk appends is the synthesized row of
some accepted discovered file which either already had its output present when
the walk segment started, or whose convert-or-copy step succeeds. -/
theorem rows_shape (cfg : Config) (files : List SrcFile) :
    ∀ (st : St) (r : Row), r ∈ (runFiles cfg st files).rows →
      r ∈ st.rows ∨ ∃ f, f ∈ files ∧ r = mkRow cfg f ∧ accepted cfg f ∧
        ((lookupFS st.fs (outRel f)).isSome = true ∨
          ∃ b, f.writeResult = Except.ok b) := by
  induction files with
  | nil => intro st r h; exact Or.inl h
  | cons g rest ih =>
    intro st r h
    rw [runFiles_cons] at h
    rcases ih (processFile cfg st g) r h with hmem | ⟨f, hf, hrow, hacc, hsrc⟩
    · rcases processFile_split cfg st g with
        ⟨heq, -⟩ | ⟨heq, -⟩ | ⟨heq, haccg, hex, -⟩ | ⟨b, heq, haccg, -, hres⟩ | ⟨m, heq, -⟩
      · rw [heq] at hmem; exact Or.inl hmem
      · rw [heq] at hmem; exact Or.inl hmem
      · rw [heq] at hmem
        rcases List.mem_append.mp hmem with h1 | h2
        · exact Or.inl h1
        · exact Or.inr ⟨g, List.mem_cons_self g rest, List.mem_singleton.mp h2,
            haccg, Or.inl hex⟩
      · rw [heq] at hmem
        rcases List.mem_append.mp hmem with h1 | h2
        · exact Or.inl h1
        · exact Or.inr ⟨g, List.mem_cons_self g rest, List.mem_singleton.mp h2,
            haccg, Or.inr ⟨b, hres⟩⟩
      · rw [heq] at hmem; exact Or.inl hmem
    · rcases hsrc with hsome | hok
      · rcases processFile_split cfg st g with
          ⟨heq, -⟩ | ⟨heq, -⟩ | ⟨heq, -⟩ | ⟨b, heq, haccg, -, hres⟩ | ⟨m, heq, -⟩
        · rw [heq] at hsome
          exact Or.inr ⟨f, List.mem_cons_of_mem g hf, hrow, hacc, Or.inl hsome⟩
        · rw [heq] at hsome
          exact Or.inr ⟨f, List.mem_cons_of_mem g hf, hrow, hacc, Or.inl hsome⟩
        · rw [heq] at hsome
          exact Or.inr ⟨f, List.mem_cons_of_mem g hf, hrow, hacc, Or.inl hsome⟩
        · rw [heq] at hsome
          rw [lookupFS_cons] at hsome
          by_cases hkey : outRel f = outRel g
          · have hrow2 : r = mkRow cfg g := by rw [hrow]; exact mkRow_congr cfg hkey
            exact Or.inr ⟨g, List.mem_cons_self g rest, hrow2, haccg, Or.inr ⟨b, hres⟩⟩
          · rw [if_neg hkey] at hsome
            exact Or.inr ⟨f, List.mem_cons_of_mem g hf, hrow, hacc, Or.inl hsome⟩
        · rw [heq] at hsome
          exact Or.inr ⟨f, List.mem_cons_of_mem g hf, hrow, hacc, Or.inl hsome⟩
      · exact Or.inr ⟨f, List.mem_cons_of_mem g hf, hrow, hacc, Or.inr hok⟩

/-- Provenance of output files: anything present after the walk was present
before it, or was written by some accepted file whose step succeeded. -/
theorem fs_provenance (cfg : Config) (files : List SrcFile) :
    ∀ (st : St) (k : List String),
      (lookupFS (runFiles cfg st files).fs k).isSome = true →
      (lookupFS st.fs k).isSome = true ∨
        ∃ g, g ∈ files ∧ outRel g = k ∧ accepted cfg g ∧
          ∃ b, g.writeResult = Except.ok b := by
  induction files with
  | nil => intro st k h; exact Or.inl h
  | cons g rest ih =>
    intro st k h
    rw [runFiles_cons] at h
    rcases ih (processFile cfg st g) k h with hsome | ⟨g2, hg2, hkey, hacc, hok⟩
    · rcases processFile_split cfg st g with
        ⟨heq, -⟩ | ⟨heq, -⟩ | ⟨heq, -⟩ | ⟨b, heq, haccg, -, hres⟩ | ⟨m, heq, -⟩
      · rw [heq] at hsome; exact Or.inl hsome
      · rw [heq] at hsome; exact Or.inl hsome
      · rw [heq] at hsome; exact Or.inl hsome
      · rw [heq] at hsome
        rw [lookupFS_cons] at hsome
        by_cases hkey : k = outRel g
        · exact Or.inr ⟨g, List.mem_cons_self g rest, hkey.symm, haccg, b, hres⟩
        · rw [if_neg hkey] at hsome; exact Or.inl hsome
      · rw [heq] at hsome; exact Or.inl hsome
    · exact Or.inr ⟨g2, List.mem_cons_of_mem g hg2, hkey, hacc, hok⟩

/-- An accepted file whose output is already present when the walk starts gets
its row appended (overwrite disabled). -/
theorem emit_exists (cfg : Config) (files : List SrcFile) (hov : cfg.overwrite = false) :
    ∀ (st : St) (f : SrcFile), f ∈ files → accepted cfg f →
      (lookupFS st.fs (outRel f)).isSome = true →
      mkRow cfg f ∈ (runFiles cfg st files).rows := by
  induction files with
  | nil => intro st f hf; exact absurd hf (List.not_mem_nil f)
  | cons g rest ih =>
    intro st f hf hacc hsome
    rw [runFiles_cons]
    rcases List.mem_cons.mp hf with rfl | hf2
    · rw [processFile_skipExisting cfg st f hacc hsome hov]
      exact rows_mono_run cfg rest _ _
        (List.mem_append_right _ (List.mem_singleton.mpr rfl))
    · exact ih _ f hf2 hacc (fs_mono_step cfg st g _ hsome)

/-- An accepted file whose convert-or-copy step succeeds gets its row
appended, whether through the skip-existing or the converted branch. -/
theorem emit_ok (cfg : Config) (files : List SrcFile) :
    ∀ (st : St) (f : SrcFile) (b : List Nat), f ∈ files → accepted cfg f →
      f.writeResult = Except.ok b → mkRow cfg f ∈ (runFiles cfg st files).rows := by
  induction files with
  | nil => intro st f b hf; exact absurd hf (List.not_mem_nil f)
  | cons g rest ih =>
    intro st f b hf hacc hres
    rw [runFiles_cons]
    rcases List.mem_cons.mp hf with rfl | hf2
    · by_cases hex : (lookupFS st.fs (outRel f)).isSome = true ∧ cfg.overwrite = false
      · rw [processFile_skipExisting cfg st f hacc hex.1 hex.2]
        exact rows_mono_run cfg rest _ _
          (List.mem_append_right _ (List.mem_singleton.mpr rfl))
      · rw [processFile_ok cfg st f b hacc hex hres]
        exact rows_mono_run cfg rest _ _
          (List.mem_append_right _ (List.mem_singleton.mpr rfl))
    · exact ih _ f b hf2 hacc hres

/-- An accepted file whose convert-or-copy step succeeds ends the walk with
its mirrored output present. -/
theorem ok_implies_fs (cfg : Config) (files : List SrcFile) :
    ∀ (st : St) (f : SrcFile) (b : List Nat), f ∈ files → accepted cfg f →
      f.writeResult = Except.ok b →
      (lookupFS (runFiles cfg st files).fs (outRel f)).isSome = true := by
  induction files with
  | nil => intro st f b hf; exact absurd hf (List.not_mem_nil f)
  | cons g rest ih =>
    intro st f b hf hacc hres
    rw [runFiles_cons]
    rcases List.mem_cons.mp hf with rfl | hf2
    · by_cases hex : (lookupFS st.fs (outRel f)).isSome = true ∧ cfg.overwrite = false
      · rw [processFile_skipExisting cfg st f hacc hex.1 hex.2]
        exact fs_mono_run cfg rest _ _ hex.1
      · rw [processFile_ok cfg st f b hacc hex hres]
        apply fs_mono_run
        show (lookupFS ((outRel f, b) :: st.fs) (outRel f)).isSome = true
        rw [lookupFS_cons, if_pos rfl]
        rfl
    · exact ih _ f b hf2 hacc hres

/-- After the walk, every accepted file either has its output present or its
convert-or-copy step fails. -/
theorem run_fate (cfg : Config) (files : List SrcFile) (st : St) (f : SrcFile)
    (hf : f ∈ files) (hacc : accepted cfg f) :
    (lookupFS (runFiles cfg st files).fs (outRel f)).isSome = true ∨
      ∃ m, f.writeResult = Except.error m := by
  cases hres : f.writeResult with
  | ok b => exact Or.inl (ok_implies_fs cfg files st f b hf hacc hres)
  | error m => exact Or.inr ⟨m, rfl⟩

/-- With overwrite disabled, a walk whose accepted files all either fail or
already have their output present writes nothing at all. -/
theorem fs_fixpoint (cfg : Config) (files : List SrcFile) (hov : cfg.overwrite = false) :
    ∀ (st : St),
      (∀ f, f ∈ files → accepted cfg f →
        (lookupFS st.fs (outRel f)).isSome = true ∨
          ∃ m, f.writeResult = Except.error m) →
      (runFiles cfg st files).fs = st.fs := by
  induction files with
  | nil => intro st _; rfl
  | cons g rest ih =>
    intro st hall
    rw [runFiles_cons]
    have hfs : (processFile cfg st g).fs = st.fs := by
      rcases processFile_split cfg st g with
        ⟨heq, -⟩ | ⟨heq, -⟩ | ⟨heq, -⟩ | ⟨b, heq, haccg, hnot, hres⟩ | ⟨m, heq, -⟩
      · rw [heq]
      · rw [heq]
      · rw [heq]
      · rcases hall g (List.mem_cons_self g rest) haccg with hsome | ⟨m, hm⟩
        · exact absurd ⟨hsome, hov⟩ hnot
        · rw [hres] at hm; exact Except.noConfusion hm
      · rw [heq]
    have hhyp : ∀ f, f ∈ rest → accepted cfg f →
        (lookupFS (processFile cfg st g).fs (outRel f)).isSome = true ∨
          ∃ m, f.writeResult = Except.error m := by
      intro f hf hacc
      rw [hfs]
      exact hall f (List.mem_cons_of_mem g hf) hacc
    rw [ih (processFile cfg st g) hhyp, hfs]

/-- Appending `.webp` to a nonempty stem makes exactly `.webp` the `pathlib`
suffix: the last dot is the appended one, it is neither first nor last. -/
theorem pySplitName_webp (s : List Char) (hs : s ≠ []) :
    pySplitName (s ++ ['.', 'w', 'e', 'b', 'p']) = (s, ['.', 'w', 'e', 'b', 'p']) := by
  have h0 : 0 < s.length := List.length_pos.mpr hs
  have hrev : (s ++ ['.', 'w', 'e', 'b', 'p']).reverse
      = 'p' :: 'b' :: 'e' :: 'w' :: '.' :: s.reverse := by
    simp
  have htake : ('p' :: 'b' :: 'e' :: 'w' :: '.' :: s.reverse).takeWhile
      (fun c => decide (c ≠ '.')) = ['p', 'b', 'e', 'w'] := by
    simp [List.takeWhile_cons]
  simp only [pySplitName, hrev, htake]
  have hcond : (['p', 'b', 'e', 'w'] : List Char).length + 1
      < (s ++ ['.', 'w', 'e', 'b', 'p']).length ∧
      0 < (['p', 'b', 'e', 'w'] : List Char).length := by
    constructor
    · simp only [List.length_append]
      simp
      omega
    · simp
  rw [if_pos hcond]
  simp

/-- When the suffix is nonempty the stem is nonempty too (the last dot is not
the first character). -/
theorem pySplitName_fst_ne_nil {cs : List Char} (h : (pySplitName cs).2 ≠ []) :
    (pySplitName cs).1 ≠ [] := by
  simp only [pySplitName] at h ⊢
  by_cases hc : (cs.reverse.takeWhile (fun c => decide (c ≠ '.'))).length + 1 < cs.length ∧
      0 < (cs.reverse.takeWhile (fun c => decide (c ≠ '.'))).length
  · rw [if_pos hc]
    intro heq
    have hlen := congrArg List.length heq
    simp only [List.length_reverse, List.length_drop, List.length_nil] at hlen
    omega
  · rw [if_neg hc] at h
    rw [if_neg hc]
    exact absurd rfl h

theorem toList_append (a b : String) : (a ++ b).toList = a.toList ++ b.toList := rfl

/-- Replacing the extension of a filename that has one preserves the stem:
the stem of `stem + ".webp"` is `stem` again. -/
theorem pyStem_append_webp (name : String) (h : pySuffix name ≠ "") :
    pyStem (pyStem name ++ WEBP_EXT) = pyStem name := by
  have h2 : (pySplitName name.toList).2 ≠ [] := by
    intro hnil
    apply h
    unfold pySuffix
    rw [hnil]
  have h1 : (pySplitName name.toList).1 ≠ [] := pySplitName_fst_ne_nil h2
  unfold pyStem
  have h3 : (String.mk (pySplitName name.toList).1 ++ WEBP_EXT).toList
      = (pySplitName name.toList).1 ++ ['.', 'w', 'e', 'b', 'p'] := rfl
  rw [h3, pySplitName_webp _ h1]

/-- A file the extension filter accepts has a nonempty `pathlib` suffix. -/
theorem suffix_ne_empty_of_accepted {f : SrcFile}
    (h : ext f ∈ VALID_EXTS ∨ ext f = WEBP_EXT) : pySuffix f.name ≠ "" := by
  intro hnil
  have hext : ext f = "" := by
    unfold ext
    rw [hnil]
    rfl
  rw [hext] at h
  rcases h with h | h
  · exact absurd h (by decide)
  · exact absurd h (by decide)

/-- C2: the name parser is pure and total; on every input it returns the
first, second and third underscore-separated segment, the empty string for
each missing segment, ignoring every later segment; with the three contract
examples `34th_st_times_square`, `onlyname` and the empty stem. -/
theorem C2_parse_name_contract (s : String) :
    parse_name s =
      (((pySplitUnd s.toList).map String.mk).getD 0 "",
       ((pySplitUnd s.toList).map String.mk).getD 1 "",
       ((pySplitUnd s.toList).map String.mk).getD 2 "") ∧
    parse_name "34th_st_times_square" = ("34th", "st", "times") ∧
    parse_name "onlyname" = ("onlyname", "", "") ∧
    parse_name "" = ("", "", "") := by
  refine ⟨?_, by decide, by decide, by decide⟩
  have key : ∀ (l : List String) (i : Nat),
      (if i < l.length then l.getD i "" else "") = l.getD i "" := by
    intro l i
    by_cases h : i < l.length
    · rw [if_pos h]
    · rw [if_neg h, List.getD_eq_default l "" (by omega)]
  simp only [parse_name]
  rw [key, key, key]

/-- C8: when lossless is requested the encoder kwargs carry `lossless=True`
and no quality at all; otherwise they carry the quality and no lossless
option. -/
theorem C8_lossless_ignores_quality (q : Int) (ke : Bool) (m : Int)
    (ex : Option (List Nat)) :
    ((to_webp_save_kwargs q true ke m ex).lossless = some true ∧
     (to_webp_save_kwargs q true ke m ex).quality = none) ∧
    ((to_webp_save_kwargs q false ke m ex).lossless = none ∧
     (to_webp_save_kwargs q false ke m ex).quality = some q) := by
  cases ke <;> cases ex <;> exact ⟨⟨rfl, rfl⟩, rfl, rfl⟩

/-- C5: a discovered file of the target extension under skip-native-inputs
only bumps the skipped counter: no row, no other counter, and the result does
not consult the output tree at all (the equation holds for every state, in
particular for every filesystem). -/
theorem C5_skip_native (cfg : Config) (st : St) (f : SrcFile)
    (h1 : ext f = WEBP_EXT) (h2 : cfg.skipWebpInputs = true) :
    processFile cfg st f = { st with skipped := st.skipped + 1 } :=
  processFile_skipNative cfg st f h1 h2

/-- C6: a failing convert-or-copy step bumps exactly the error counter,
appends no row, leaves the other counters and the output tree alone, and the
walk continues with the remaining files. -/
theorem C6_error_isolated (cfg : Config) (st : St) (f : SrcFile)
    (rest : List SrcFile) (m : String)
    (hacc : accepted cfg f)
    (hnot : ¬((lookupFS st.fs (outRel f)).isSome = true ∧ cfg.overwrite = false))
    (hres : f.writeResult = Except.error m) :
    processFile cfg st f = { st with errors := st.errors + 1 } ∧
    runFiles cfg st (f :: rest) =
      runFiles cfg { st with errors := st.errors + 1 } rest := by
  have h := processFile_err cfg st f m hacc hnot hres
  refine ⟨h, ?_⟩
  rw [runFiles_cons, h]

/-- C4 as stated fails: a discovered `.txt` file whose mirrored output path
exists (overwrite disabled) is dropped by the extension filter — no row is
appended and the skipped counter stays put. -/
theorem C4_counterexample :
    (lookupFS [(["notes.webp"], [7])]
        (outRel { dirs := [], name := "notes.txt", writeResult := Except.ok [] })).isSome
      = true ∧
    processFile { baseUrl := "https://u", overwrite := false, skipWebpInputs := false }
        { converted := 0, skipped := 0, errors := 0, rows := [],
          fs := [(["notes.webp"], [7])] }
        { dirs := [], name := "notes.txt", writeResult := Except.ok [] }
      = { converted := 0, skipped := 0, errors := 0, rows := [],
          fs := [(["notes.webp"], [7])] } :=
  ⟨by decide, by decide⟩

/-- C4 amended: for every discovered file that passes the extension filter
and the skip-native-inputs cut, whose mirrored output exists while overwrite
is disabled, exactly one row synthesized from the existing output's stem is
appended, skipped is bumped by one, and the output tree (hence the existing
file's bytes) is untouched. -/
theorem C4_skip_existing_row (cfg : Config) (st : St) (f : SrcFile)
    (hacc : accepted cfg f)
    (hex : (lookupFS st.fs (outRel f)).isSome = true)
    (hov : cfg.overwrite = false) :
    processFile cfg st f =
      { st with rows := st.rows ++ [mkRow cfg f], skipped := st.skipped + 1 } :=
  processFile_skipExisting cfg st f hacc hex hov

/-- C10: every walked file bumps exactly one of the three counters by one
(so the printed `Files seen` total, converted + skipped + errors, grows by
one), except a file outside the accepted extensions, which changes nothing
and appends no row. -/
theorem C10_counter_partition (cfg : Config) (st : St) (f : SrcFile) :
    ((processFile cfg st f).converted = st.converted + 1 ∧
      (processFile cfg st f).skipped = st.skipped ∧
      (processFile cfg st f).errors = st.errors ∧
      totalSeen (processFile cfg st f) = totalSeen st + 1) ∨
    ((processFile cfg st f).converted = st.converted ∧
      (processFile cfg st f).skipped = st.skipped + 1 ∧
      (processFile cfg st f).errors = st.errors ∧
      totalSeen (processFile cfg st f) = totalSeen st + 1) ∨
    ((processFile cfg st f).converted = st.converted ∧
      (processFile cfg st f).skipped = st.skipped ∧
      (processFile cfg st f).errors = st.errors + 1 ∧
      totalSeen (processFile cfg st f) = totalSeen st + 1) ∨
    (processFile cfg st f = st ∧ (processFile cfg st f).rows = st.rows ∧
      ext f ∉ VALID_EXTS ∧ ext f ≠ WEBP_EXT) := by
  rcases processFile_split cfg st f with
    ⟨heq, -⟩ | ⟨heq, hno, hnw⟩ | ⟨heq, -⟩ | ⟨b, heq, -⟩ | ⟨m, heq, -⟩ <;> rw [heq]
  · exact Or.inr (Or.inl ⟨rfl, rfl, rfl, by dsimp only [totalSeen]; omega⟩)
  · exact Or.inr (Or.inr (Or.inr ⟨rfl, rfl, hno, hnw⟩))
  · exact Or.inr (Or.inl ⟨rfl, rfl, rfl, by dsimp only [totalSeen]; omega⟩)
  · exact Or.inl ⟨rfl, rfl, rfl, by dsimp only [totalSeen]; omega⟩
  · exact Or.inr (Or.inr (Or.inl ⟨rfl, rfl, rfl, by dsimp only [totalSeen]; omega⟩))

/-- C3: every emitted row's URL is the base URL with trailing slashes
stripped, a single slash, and the row's relative path. -/
theorem C3_url_round_trip (cfg : Config) (files : List SrcFile) (fs0 : FS)
    (r : Row) (hr : r ∈ (run cfg files fs0).rows) :
    r.url = rstripSlash cfg.baseUrl ++ "/" ++ r.relPath := by
  rcases rows_shape cfg files _ r hr with hmem | ⟨f, -, hrow, -, -⟩
  · exact absurd hmem (List.not_mem_nil r)
  · rw [hrow]
    rfl

/-- C9: every row ever appended — by the skip-existing branch or the
converted branch alike — renders its relative path posix-style: the mirrored
output path's components joined with forward slashes. -/
theorem C9_rows_posix (cfg : Config) (files : List SrcFile) (fs0 : FS)
    (r : Row) (hr : r ∈ (run cfg files fs0).rows) :
    ∃ f, f ∈ files ∧ r = mkRow cfg f ∧
      r.relPath = String.intercalate "/" (f.dirs ++ [outName f]) := by
  rcases rows_shape cfg files _ r hr with hmem | ⟨f, hf, hrow, -, -⟩
  · exact absurd hmem (List.not_mem_nil r)
  · refine ⟨f, hf, hrow, ?_⟩
    rw [hrow]
    rfl

/-- C1 as stated fails: a discovered accepted file whose decode raises leaves
no output at the mirrored path, even with overwrite enabled. -/
theorem C1_counterexample :
    ext { dirs := [], name := "a.jpg", writeResult := Except.error "broken" } ∈ VALID_EXTS ∧
    lookupFS (run { baseUrl := "https://u", overwrite := true, skipWebpInputs := false }
        [{ dirs := [], name := "a.jpg", writeResult := Except.error "broken" }] []).fs
      (outRel { dirs := [], name := "a.jpg", writeResult := Except.error "broken" }) = none :=
  ⟨by decide, by decide⟩

/-- C1 amended: for every discovered file passing the extension filter and
the skip-native-inputs cut whose convert-or-copy step succeeds, a run with
overwrite enabled leaves the output at the mirrored relative path (same
directory components, extension replaced by `.webp`), and the output
filename's stem equals the input filename's stem byte-for-byte. -/
theorem C1_mirror_and_stem (cfg : Config) (files : List SrcFile) (fs0 : FS)
    (f : SrcFile) (b : List Nat)
    (_hov : cfg.overwrite = true)
    (hf : f ∈ files)
    (hva : ext f ∈ VALID_EXTS ∨ ext f = WEBP_EXT)
    (hns : ¬(ext f = WEBP_EXT ∧ cfg.skipWebpInputs = true))
    (hok : f.writeResult = Except.ok b) :
    (lookupFS (run cfg files fs0).fs (outRel f)).isSome = true ∧
    pyStem (outName f) = pyStem f.name := by
  constructor
  · exact ok_implies_fs cfg files _ f b hf ⟨hva, hns⟩ hok
  · exact pyStem_append_webp f.name (suffix_ne_empty_of_accepted hva)

/-- C7: with overwrite disabled, running the same walk a second time over the
output tree the first run produced writes nothing (every output file's bytes
are untouched) and produces the same set of rows. -/
theorem C7_idempotent (cfg : Config) (files : List SrcFile) (fs0 : FS)
    (hov : cfg.overwrite = false) :
    (run cfg files (run cfg files fs0).fs).fs = (run cfg files fs0).fs ∧
    (∀ r : Row, r ∈ (run cfg files (run cfg files fs0).fs).rows ↔
      r ∈ (run cfg files fs0).rows) := by
  have hfate : ∀ f, f ∈ files → accepted cfg f →
      (lookupFS (run cfg files fs0).fs (outRel f)).isSome = true ∨
        ∃ m, f.writeResult = Except.error m := by
    intro f hf hacc
    exact run_fate cfg files _ f hf hacc
  constructor
  · exact fs_fixpoint cfg files hov _ hfate
  · intro r
    constructor
    · intro h2
      rcases rows_shape cfg files _ r h2 with hmem | ⟨f, hf, hrow, hacc, hsrc⟩
      · exact absurd hmem (List.not_mem_nil r)
      · rcases hsrc with hsome | ⟨b, hres⟩
        · rcases fs_provenance cfg files _ _ hsome with h0 | ⟨g, hg, hkey, haccg, b, hres⟩
          · rw [hrow]
            exact emit_exists cfg files hov _ f hf hacc h0
          · rw [hrow, mkRow_congr cfg hkey.symm]
            exact emit_ok cfg files _ g b hg haccg hres
        · rw [hrow]
          exact emit_ok cfg files _ f b hf hacc hres
    · intro h1
      rcases rows_shape cfg files _ r h1 with hmem | ⟨f, hf, hrow, hacc, hsrc⟩
      · exact absurd hmem (List.not_mem_nil r)
      · have hsome : (lookupFS (run cfg files fs0).fs (outRel f)).isSome = true := by
          rcases hsrc with hsome0 | ⟨b, hres⟩
          · exact fs_mono_run cfg files _ _ hsome0
          · exact ok_implies_fs cfg files _ f b hf hacc hres
        rw [hrow]
        exact emit_exists cfg files hov _ f hf hacc hsome

/-- Witness for C5 at a concrete native-format input. -/
theorem C5_skip_native_witness :
    ext { dirs := [], name := "pic.webp", writeResult := Except.ok [1] } = WEBP_EXT ∧
    ({ baseUrl := "https://u", overwrite := false, skipWebpInputs := true } : Config).skipWebpInputs
      = true ∧
    processFile { baseUrl := "https://u", overwrite := false, skipWebpInputs := true }
        { converted := 2, skipped := 3, errors := 4, rows := [], fs := [] }
        { dirs := [], name := "pic.webp", writeResult := Except.ok [1] }
      = { converted := 2, skipped := 4, errors := 4, rows := [], fs := [] } :=
  ⟨by decide, rfl, C5_skip_native _ _ _ (by decide) rfl⟩

/-- Witness for C6 at a concrete corrupt input. -/
theorem C6_error_isolated_witness :
    accepted { baseUrl := "https://u", overwrite := false, skipWebpInputs := false }
        { dirs := [], name := "corrupt.jpg", writeResult := Except.error "cannot identify" } ∧
    ¬((lookupFS ([] : FS)
        (outRel { dirs := [], name := "corrupt.jpg", writeResult := Except.error "cannot identify" })).isSome = true ∧
      ({ baseUrl := "https://u", overwrite := false, skipWebpInputs := false } : Config).overwrite
        = false) ∧
    processFile { baseUrl := "https://u", overwrite := false, skipWebpInputs := false }
        { converted := 0, skipped := 0, errors := 0, rows := [], fs := [] }
        { dirs := [], name := "corrupt.jpg", writeResult := Except.error "cannot identify" }
      = { converted := 0, skipped := 0, errors := 1, rows := [], fs := [] } :=
  ⟨by unfold accepted; decide, by decide,
    (C6_error_isolated _ _ _ [] "cannot identify"
      (by unfold accepted; decide) (by decide) rfl).1⟩

/-- Witness for C4's amended statement at a concrete pre-existing output. -/
theorem C4_skip_existing_row_witness :
    accepted { baseUrl := "https://u", overwrite := false, skipWebpInputs := false }
        { dirs := [], name := "a.jpg", writeResult := Except.ok [9] } ∧
    (lookupFS [(["a.webp"], [7])]
        (outRel { dirs := [], name := "a.jpg", writeResult := Except.ok [9] })).isSome = true ∧
    processFile { baseUrl := "https://u", overwrite := false, skipWebpInputs := false }
        { converted := 0, skipped := 0, errors := 0, rows := [], fs := [(["a.webp"], [7])] }
        { dirs := [], name := "a.jpg", writeResult := Except.ok [9] }
      = { converted := 0, skipped := 1, errors := 0,
          rows := [mkRow { baseUrl := "https://u", overwrite := false, skipWebpInputs := false }
            { dirs := [], name := "a.jpg", writeResult := Except.ok [9] }],
          fs := [(["a.webp"], [7])] } :=
  ⟨by unfold accepted; decide, by decide,
    C4_skip_existing_row _ _ _ (by unfold accepted; decide) (by decide) rfl⟩

/-- Witness for C3 at a concrete run with a trailing-slash base URL. -/
theorem C3_url_round_trip_witness :
    mkRow { baseUrl := "https://u.github.io/repo/", overwrite := true, skipWebpInputs := false }
        { dirs := [], name := "a_b_c_d.jpg", writeResult := Except.ok [3] } ∈
      (run { baseUrl := "https://u.github.io/repo/", overwrite := true, skipWebpInputs := false }
        [{ dirs := [], name := "a_b_c_d.jpg", writeResult := Except.ok [3] }] []).rows ∧
    (mkRow { baseUrl := "https://u.github.io/repo/", overwrite := true, skipWebpInputs := false }
        { dirs := [], name := "a_b_c_d.jpg", writeResult := Except.ok [3] }).url
      = rstripSlash "https://u.github.io/repo/" ++ "/" ++
        (mkRow { baseUrl := "https://u.github.io/repo/", overwrite := true, skipWebpInputs := false }
          { dirs := [], name := "a_b_c_d.jpg", writeResult := Except.ok [3] }).relPath :=
  ⟨by decide, C3_url_round_trip
    { baseUrl := "https://u.github.io/repo/", overwrite := true, skipWebpInputs := false }
    [{ dirs := [], name := "a_b_c_d.jpg", writeResult := Except.ok [3] }] []
    (mkRow { baseUrl := "https://u.github.io/repo/", overwrite := true, skipWebpInputs := false }
      { dirs := [], name := "a_b_c_d.jpg", writeResult := Except.ok [3] })
    (by decide)⟩

/-- Witness for C9 at a concrete nested input. -/
theorem C9_rows_posix_witness :
    mkRow { baseUrl := "https://u", overwrite := true, skipWebpInputs := false }
        { dirs := ["d1", "d2"], name := "x.gif", writeResult := Except.ok [1] } ∈
      (run { baseUrl := "https://u", overwrite := true, skipWebpInputs := false }
        [{ dirs := ["d1", "d2"], name := "x.gif", writeResult := Except.ok [1] }] []).rows ∧
    (∃ f, f ∈ [({ dirs := ["d1", "d2"], name := "x.gif", writeResult := Except.ok [1] } : SrcFile)] ∧
      mkRow { baseUrl := "https://u", overwrite := true, skipWebpInputs := false }
          { dirs := ["d1", "d2"], name := "x.gif", writeResult := Except.ok [1] }
        = mkRow { baseUrl := "https://u", overwrite := true, skipWebpInputs := false } f ∧
      (mkRow { baseUrl := "https://u", overwrite := true, skipWebpInputs := false }
          { dirs := ["d1", "d2"], name := "x.gif", writeResult := Except.ok [1] }).relPath
        = String.intercalate "/" (f.dirs ++ [outName f])) :=
  ⟨by decide, C9_rows_posix
    { baseUrl := "https://u", overwrite := true, skipWebpInputs := false }
    [{ dirs := ["d1", "d2"], name := "x.gif", writeResult := Except.ok [1] }] []
    (mkRow { baseUrl := "https://u", overwrite := true, skipWebpInputs := false }
      { dirs := ["d1", "d2"], name := "x.gif", writeResult := Except.ok [1] })
    (by decide)⟩

/-- Witness for C1's amended statement at a concrete uppercase-extension
input in a subdirectory. -/
theorem C1_mirror_and_stem_witness :
    ({ baseUrl := "https://u.github.io/repo", overwrite := true, skipWebpInputs := false } : Config).overwrite
      = true ∧
    ({ dirs := ["sub"], name := "34th_st_times_square.PNG", writeResult := Except.ok [1, 2] } : SrcFile) ∈
      [({ dirs := ["sub"], name := "34th_st_times_square.PNG", writeResult := Except.ok [1, 2] } : SrcFile)] ∧
    (ext { dirs := ["sub"], name := "34th_st_times_square.PNG", writeResult := Except.ok [1, 2] }
        ∈ VALID_EXTS ∨
      ext { dirs := ["sub"], name := "34th_st_times_square.PNG", writeResult := Except.ok [1, 2] }
        = WEBP_EXT) ∧
    (lookupFS (run { baseUrl := "https://u.github.io/repo", overwrite := true, skipWebpInputs := false }
        [{ dirs := ["sub"], name := "34th_st_times_square.PNG", writeResult := Except.ok [1, 2] }] []).fs
      (outRel { dirs := ["sub"], name := "34th_st_times_square.PNG", writeResult := Except.ok [1, 2] })).isSome = true ∧
    pyStem (outName { dirs := ["sub"], name := "34th_st_times_square.PNG", writeResult := Except.ok [1, 2] })
      = pyStem ({ dirs := ["sub"], name := "34th_st_times_square.PNG", writeResult := Except.ok [1, 2] } : SrcFile).name :=
  ⟨rfl, List.mem_singleton.mpr rfl, by decide,
    C1_mirror_and_stem _ _ [] _ [1, 2] rfl (List.mem_singleton.mpr rfl)
      (by decide) (by decide) rfl⟩

/-- Witness for C7 at a concrete pair of runs: one convertible file, one
corrupt file. -/
theorem C7_idempotent_witness :
    ({ baseUrl := "https://u", overwrite := false, skipWebpInputs := false } : Config).overwrite
      = false ∧
    (run { baseUrl := "https://u", overwrite := false, skipWebpInputs := false }
        [{ dirs := [], name := "a.jpg", writeResult := Except.ok [5] },
         { dirs := [], name := "bad.png", writeResult := Except.error "oops" }]
        (run { baseUrl := "https://u", overwrite := false, skipWebpInputs := false }
          [{ dirs := [], name := "a.jpg", writeResult := Except.ok [5] },
           { dirs := [], name := "bad.png", writeResult := Except.error "oops" }] []).fs).fs
      = (run { baseUrl := "https://u", overwrite := false, skipWebpInputs := false }
          [{ dirs := [], name := "a.jpg", writeResult := Except.ok [5] },
           { dirs := [], name := "bad.png", writeResult := Except.error "oops" }] []).fs :=
  ⟨rfl, (C7_idempotent _ _ _ rfl).1⟩

